import Mathlib

/-!
Verification of the ingestion / derivation pipeline of the Korean
passage-title search page (`src/App.tsx`).

The TypeScript source is shallowly embedded: JS strings become `String`
(worked on as `List Char` where the source scans characters), JS objects
(`RowData = Record<string, string>`) become insertion-ordered association
lists, and the React state updates become explicit state-transition
functions.  Each definition mirrors one function or expression of the
source; line references point into `src/App.tsx`.
-/

/-! ## JS string helpers -/

/-- JS whitespace test used by `String.prototype.trim` (ASCII part). -/
def jsIsSpace (c : Char) : Bool :=
  c == ' ' || c == '\t' || c == '\n' || c == '\r' || c == '\x0b' || c == '\x0c'

/-- `String.prototype.trim` on a character list: drop leading and trailing
whitespace. -/
def jsTrimL (l : List Char) : List Char :=
  ((l.dropWhile jsIsSpace).reverse.dropWhile jsIsSpace).reverse

/-- `s.trim()` at the `String` level. -/
def jsTrimS (s : String) : String := String.mk (jsTrimL s.toList)

/-- `s.toLowerCase()` (character-wise, ASCII case fold; Korean text has no
case so this is exact on the data this app handles). -/
def lowerS (s : String) : String := String.mk (s.toList.map Char.toLower)

/-- Does `hay` start with `needle`? (helper for `String.prototype.includes`). -/
def strStarts : List Char → List Char → Bool
  | [], _ => true
  | _ :: _, [] => false
  | a :: as, b :: bs => a == b && strStarts as bs

/-- Does `hay` contain `needle` as a contiguous substring? -/
def strHas (needle : List Char) : List Char → Bool
  | [] => strStarts needle []
  | c :: cs => strStarts needle (c :: cs) || strHas needle cs

/-- `s.includes(t)` of JS. -/
def jsIncludes (s t : String) : Bool := strHas t.toList s.toList

/-! ## CSV line parser (`parseCsvLine`, src/App.tsx lines 55-84) -/

/-- Prepend a character to the first (current) field of a parse result. -/
def consHead (c : Char) : List (List Char) → List (List Char)
  | [] => [[c]]
  | l :: ls => (c :: l) :: ls

/-- The character scanner of `parseCsvLine`: the loop state `inQuotes` plus
the remaining characters.  The current field being accumulated is the head
of the returned list. -/
def parseCsv : Bool → List Char → List (List Char)
  | _, [] => [[]]
  | true, '"' :: '"' :: rest => consHead '"' (parseCsv true rest)
  | true, '"' :: rest => parseCsv false rest
  | false, '"' :: rest => parseCsv true rest
  | false, ',' :: rest => [] :: parseCsv false rest
  | inQuotes, c :: rest => consHead c (parseCsv inQuotes rest)

/-- `parseCsvLine` of the source: scan the line, starting outside quotes. -/
def parseCsvLine (line : String) : List String :=
  (parseCsv false line.toList).map String.mk

/-- Modelled from the spec: the quoting rules of the CSV Line Parser
contract (§4.1), as a relation between a line (with the current
"inside quoted field" state) and an acceptable field sequence:
a double-quote toggles the inside-quoted-field state unless it is
immediately followed by another double-quote while already inside a quoted
field, in which case it is a literal quote and the scanner advances two
characters; a comma is a field separator only when not inside a quoted
field, and is literal inside quotes; end of line terminates the last field
(a final field is always emitted); malformed quoting raises no error — the
remaining text joins the current field. -/
inductive QuotingParse : Bool → List Char → List (List Char) → Prop where
  | eol (inQuotes : Bool) :
      QuotingParse inQuotes [] [[]]
  | escapedQuote (rest : List Char) (out : List (List Char)) :
      QuotingParse true rest out →
      QuotingParse true ('"' :: '"' :: rest) (consHead '"' out)
  | closingQuote (rest : List Char) (out : List (List Char))
      (h : ∀ rs, rest ≠ '"' :: rs) :
      QuotingParse false rest out →
      QuotingParse true ('"' :: rest) out
  | openingQuote (rest : List Char) (out : List (List Char)) :
      QuotingParse true rest out →
      QuotingParse false ('"' :: rest) out
  | fieldSep (rest : List Char) (out : List (List Char)) :
      QuotingParse false rest out →
      QuotingParse false (',' :: rest) ([] :: out)
  | literalChar (inQuotes : Bool) (c : Char) (rest : List Char)
      (out : List (List Char)) (hq : c ≠ '"')
      (hc : inQuotes = false → c ≠ ',') :
      QuotingParse inQuotes rest out →
      QuotingParse inQuotes (c :: rest) (consHead c out)

/-! ## The regex-based comma split of the alternate implementation
(src/App.tsx line 904: `line.split(/,(?=(?:(?:[^"]*"){2})*[^"]*$)/)`).
The lookahead accepts a comma exactly when the rest of the line contains an
even number of double quotes. -/

/-- The regex split: split at a comma iff the remainder holds an even number
of `"` characters. -/
def regexSplit : List Char → List (List Char)
  | [] => [[]]
  | c :: rest =>
    if c = ',' ∧ rest.count '"' % 2 = 0 then [] :: regexSplit rest
    else consHead c (regexSplit rest)

/-- The regex split at the `String` level. -/
def regexSplitLine (line : String) : List String :=
  (regexSplit line.toList).map String.mk

/-! ## Spec-modelled rejoin (for the round-trip property)

The spec's "rejoining fields with the original delimiter (re-quoting
exactly the fields that were quoted in the original, with embedded quotes
re-doubled)" — the inverse operation the round-trip claim compares the
parser against.  A field is a string together with a flag saying whether it
was quoted in the original line. -/

/-- Modelled from the spec: re-double every embedded quote of a quoted
field's content. -/
def dblQuotes : List Char → List Char
  | [] => []
  | c :: rest =>
    if c = '"' then '"' :: '"' :: dblQuotes rest else c :: dblQuotes rest

/-- Modelled from the spec: re-encode one field, wrapping it in quotes (with
embedded quotes re-doubled) exactly when it was quoted. -/
def encodeField (f : String × Bool) : List Char :=
  if f.2 then '"' :: (dblQuotes f.1.toList ++ ['"']) else f.1.toList

/-- Modelled from the spec: rejoin the encoded fields with the comma
delimiter. -/
def encodeLine : List (String × Bool) → List Char
  | [] => []
  | [f] => encodeField f
  | f :: rest => encodeField f ++ ',' :: encodeLine rest

/-- Prepend a (parsed) field prefix to the first field of a parse result —
the specification of how `parseCsv` accumulates the current field. -/
def consAll (s : List Char) : List (List Char) → List (List Char)
  | [] => [s]
  | l :: ls => (s ++ l) :: ls

/-! ## Cell normalization (src/App.tsx lines 350, 357) -/

/-- One application of `replace(/^"/, '')`: drop a single leading quote. -/
def dropLeadQuote : List Char → List Char
  | '"' :: rest => rest
  | l => l

/-- Drop a single trailing quote (the `"$` alternative of the regex). -/
def dropTailQuote (l : List Char) : List Char :=
  if l.getLast? = some '"' then l.dropLast else l

/-- `replace(/^"|"$/g, '')`: strip one layer of surrounding quotes. -/
def stripEdgeQuotes (l : List Char) : List Char :=
  dropTailQuote (dropLeadQuote l)

/-- `replace(/""/g, '"')`: left-to-right non-overlapping replacement of each
doubled quote by a single quote. -/
def unescapeQQ : List Char → List Char
  | [] => []
  | [c] => [c]
  | a :: b :: rest =>
    if a = '"' ∧ b = '"' then '"' :: unescapeQQ rest
    else a :: unescapeQQ (b :: rest)

/-- `value.trim().replace(/^"|"$/g, '').replace(/""/g, '"')` (line 357). -/
def normalizeCell (l : List Char) : List Char :=
  unescapeQQ (stripEdgeQuotes (jsTrimL l))

/-! ## Records: JS objects as insertion-ordered association lists -/

/-- A `RowData` object of the source: column name to cell value, in
insertion order, keys unique by construction. -/
abbrev RowData := List (String × String)

/-- JS property read `row[key]` (absent property → `none` ≈ `undefined`). -/
def jsGet : RowData → String → Option String
  | [], _ => none
  | (k, v) :: rest, key => if k = key then some v else jsGet rest key

/-- JS property write `row[key] = v`: overwrite in place, else append. -/
def jsSet : RowData → String → String → RowData
  | [], k, v => [(k, v)]
  | (k', v') :: rest, k, v =>
    if k' = k then (k, v) :: rest else (k', v') :: jsSet rest k v

/-- JS `delete row[key]`. -/
def jsDelete (r : RowData) (k : String) : RowData :=
  r.filter (fun p => !(p.1 == k))

/-- `row[key] || ''`: the value with `undefined` (and `''`) collapsing to
the empty string — exactly how the pipeline reads cells. -/
def jsStr (r : RowData) (k : String) : String := (jsGet r k).getD ""

/-- `Object.values(row)` in insertion order. -/
def jsValues (r : RowData) : List String := r.map Prod.snd

/-! ## Feed processing (`fetchData`, src/App.tsx lines 334-383) -/

/-- `csvText.trim().split(/\r?\n/)`: split lines at LF or CRLF. -/
def splitLines : List Char → List (List Char)
  | [] => [[]]
  | '\r' :: '\n' :: rest => [] :: splitLines rest
  | '\n' :: rest => [] :: splitLines rest
  | c :: rest => consHead c (splitLines rest)

/-- `lines[0].split(',')`: the naive header split at every comma. -/
def splitCommas : List Char → List (List Char)
  | [] => [[]]
  | c :: rest =>
    if c = ',' then [] :: splitCommas rest else consHead c (splitCommas rest)

/-- Line 350: `lines[0].split(',').map(h => h.trim().replace(/^"|"$/g, ''))`
— note: no quote-aware parse and no `""` unescaping for headers. -/
def mkHeaders (l : List Char) : List String :=
  (splitCommas l).map (fun h => String.mk (stripEdgeQuotes (jsTrimL h)))

/-- Lines 351-359: build one record from the header list and one data line,
using the quote-aware parser for the values and `headers.reduce` to fill the
object (missing trailing fields default to the empty string). -/
def mkRow (headers : List String) (line : List Char) : RowData :=
  headers.enum.foldl
    (fun obj p =>
      jsSet obj p.2
        (String.mk (normalizeCell (((parseCsv false line).get? p.1).getD []))))
    []

/-- Lines 360-363: a row is kept iff some value is truthy and non-blank
after trimming (`Object.values(row).some(value => value && value.trim() !== '')`). -/
def rowNonEmpty (r : RowData) : Bool :=
  (jsValues r).any (fun v => !(v == "") && !(jsTrimS v == ""))

/-- Lines 350-363: the dataset built from the split lines of a body with at
least two lines. -/
def newRows (lines : List (List Char)) : List RowData :=
  ((lines.drop 1).map (mkRow (mkHeaders (lines.headD [])))).filter rowNonEmpty

/-- The error message of line 348. -/
def emptySheetMsg : String := "시트가 비어 있거나 헤더 행만 포함되어 있습니다."

/-- The headers the feed processing derives from a body. -/
def headersOf (csvText : String) : List String :=
  mkHeaders ((splitLines (jsTrimL csvText.toList)).headD [])

/-- Lines 344-365: the `(data, error)` pair published for a successfully
fetched body.  `setData` runs in both branches — the previously published
dataset is always replaced; `setError` fires only on the very first load. -/
def processBody (csvText : String) (isInitial : Bool) :
    List RowData × Option String :=
  if (splitLines (jsTrimL csvText.toList)).length < 2 then
    ([], if isInitial then some emptySheetMsg else none)
  else
    (newRows (splitLines (jsTrimL csvText.toList)), none)

/-! ## The filter / search / sort pipeline (`filteredData`,
src/App.tsx lines 419-457) -/

/-- Line 41 of the source. -/
def SEARCHABLE_COLUMNS : List String := ["작품명/지문명"]

/-- Line 42 of the source. -/
def FILTERABLE_COLUMNS : List String := ["수록교재", "대단원", "중단원"]

/-- One iteration of the hierarchical filter loop (lines 425-430): if the
column's filter value is truthy, keep only rows whose value at that column
is strictly equal to it. -/
def applyFilter (filters : RowData) (results : List RowData) (col : String) :
    List RowData :=
  let filterValue := jsStr filters col
  if filterValue ≠ "" then
    results.filter (fun row => jsGet row col == some filterValue)
  else results

/-- Lines 425-430: apply the filters column by column in the fixed order. -/
def filterStep (filters : RowData) (data : List RowData) : List RowData :=
  FILTERABLE_COLUMNS.foldl (applyFilter filters) data

/-- Lines 434-438: `SEARCHABLE_COLUMNS.some(col => row[col] &&
String(row[col]).toLowerCase().includes(lowercasedTerm))`. -/
def rowMatchesSearch (searchTerm : String) (row : RowData) : Bool :=
  SEARCHABLE_COLUMNS.any (fun col =>
    !(jsStr row col == "") &&
      jsIncludes (lowerS (jsStr row col)) (lowerS searchTerm))

/-- Lines 433-439: the search is applied only when the term is truthy. -/
def searchStep (searchTerm : String) (results : List RowData) : List RowData :=
  if searchTerm ≠ "" then results.filter (rowMatchesSearch searchTerm)
  else results

/-- Lines 441-456: the sort comparator.  For sort key `수록교재`
(`DISPLAY_COLUMNS[1].header`) it is the three-level tie-break chain
수록교재 → 대단원 → 중단원; otherwise it compares the sort-key column
directly.  `lc` abstracts `(x, y) => x.localeCompare(y, 'ko')`. -/
def rowCompare (lc : String → String → Int) (sortKey : String)
    (a b : RowData) : Int :=
  if sortKey = "수록교재" then
    let textbookCompare := lc (jsStr a "수록교재") (jsStr b "수록교재")
    if textbookCompare ≠ 0 then textbookCompare
    else
      let mainUnitCompare := lc (jsStr a "대단원") (jsStr b "대단원")
      if mainUnitCompare ≠ 0 then mainUnitCompare
      else lc (jsStr a "중단원") (jsStr b "중단원")
  else lc (jsStr a sortKey) (jsStr b sortKey)

/-- `[...results].sort(comparator)`: a stable comparison sort (ECMAScript
requires stability; modelled by stable insertion sort). -/
def sortStep (lc : String → String → Int) (sortKey : String)
    (results : List RowData) : List RowData :=
  List.insertionSort (fun a b => rowCompare lc sortKey a b ≤ 0) results

/-- Lines 419-457: the whole derived `filteredData`: filter, then search,
then sort. -/
def filteredData (lc : String → String → Int) (data : List RowData)
    (filters : RowData) (searchTerm sortKey : String) : List RowData :=
  sortStep lc sortKey (searchStep searchTerm (filterStep filters data))

/-! ## UI state transitions (src/App.tsx lines 309-493) -/

/-- The pipeline-relevant React state of `App`. -/
structure AppState where
  searchTerm : String
  filters : RowData
  sortKey : String
  currentPage : Nat
deriving DecidableEq

/-- The user events that update that state. -/
inductive UiEvent where
  | setSearch (s : String)
  | changeFilter (col v : String)
  | resetAllFilters
  | selectSortKey (k : String)
  | gotoPage (n : Nat)
deriving DecidableEq

/-- `handleFilterChange` (lines 394-413): set or delete the changed filter,
then clear every filter below it in the hierarchical chain. -/
def handleFilterChange (filters : RowData) (column value : String) : RowData :=
  let newFilters :=
    if value ≠ "" then jsSet filters column value else jsDelete filters column
  let filterIndex := FILTERABLE_COLUMNS.indexOf column
  (FILTERABLE_COLUMNS.drop (filterIndex + 1)).foldl jsDelete newFilters

/-- The raw state update of each event handler. -/
def applyEvent (st : AppState) : UiEvent → AppState
  | .setSearch s => { st with searchTerm := s }
  | .changeFilter col v => { st with filters := handleFilterChange st.filters col v }
  | .resetAllFilters => { st with filters := [] }
  | .selectSortKey k => { st with sortKey := k }
  | .gotoPage n => { st with currentPage := n }

/-- One UI transition followed by the effect of lines 484-486
(`useEffect(() => setCurrentPage(1), [searchTerm, filters, sortKey])`):
whenever any of the three pipeline inputs changed, the page resets to 1. -/
def stepApp (st : AppState) (e : UiEvent) : AppState :=
  let st2 := applyEvent st e
  if st2.searchTerm ≠ st.searchTerm ∨ st2.filters ≠ st.filters ∨
      st2.sortKey ≠ st.sortKey then
    { st2 with currentPage := 1 }
  else st2

/-! ## Valid comparators

`localeCompare` is opaque to the embedding, so the sort theorems are
parametric in a comparator `lc` assumed to behave like a real collation:
sign-antisymmetric and transitive across its strict and zero outcomes. -/

/-- The contract of a comparison function such as
`(a, b) => a.localeCompare(b, 'ko')`. -/
structure IsComparison {α : Type} (c : α → α → Int) : Prop where
  flip : ∀ a b, c a b < 0 ↔ 0 < c b a
  lt_lt : ∀ a b d, c a b < 0 → c b d < 0 → c a d < 0
  eq_lt : ∀ a b d, c a b = 0 → c b d < 0 → c a d < 0
  lt_eq : ∀ a b d, c a b < 0 → c b d = 0 → c a d < 0
  eq_eq : ∀ a b d, c a b = 0 → c b d = 0 → c a d = 0

/-- Lexicographic combination of two comparators: the shape of the
tie-break chain of lines 441-450. -/
def combineCmp {α : Type} (f g : α → α → Int) (a b : α) : Int :=
  if f a b ≠ 0 then f a b else g a b

/-- A simple valid comparator (length comparison) used to instantiate the
abstract `localeCompare` parameter in the concrete witnesses. -/
def lcDemo (a b : String) : Int := (a.length : Int) - (b.length : Int)

/-! ## Membership lemmas for the pipeline -/

/-- The sort step permutes its input, so membership is unchanged. -/
lemma mem_sortStep {lc : String → String → Int} {sortKey : String}
    {l : List RowData} {r : RowData} : r ∈ sortStep lc sortKey l ↔ r ∈ l :=
  (List.perm_insertionSort _ l).mem_iff

lemma mem_searchStep {searchTerm : String} {l : List RowData} {r : RowData}
    (h : r ∈ searchStep searchTerm l) : r ∈ l := by
  unfold searchStep at h
  split at h
  · exact (List.mem_filter.mp h).1
  · exact h

lemma mem_applyFilter {filters : RowData} {l : List RowData} {col : String}
    {r : RowData} (h : r ∈ applyFilter filters l col) : r ∈ l := by
  simp only [applyFilter] at h
  split at h
  · exact (List.mem_filter.mp h).1
  · exact h

lemma mem_foldl_applyFilter {filters : RowData} {r : RowData} :
    ∀ (cols : List String) (l : List RowData),
      r ∈ cols.foldl (applyFilter filters) l → r ∈ l := by
  intro cols
  induction cols with
  | nil => intro l h; exact h
  | cons c cs ih =>
    intro l h
    exact mem_applyFilter (ih (applyFilter filters l c) h)

/-- Any survivor of the hierarchical filter fold matches every active
filter whose column occurs in the fold. -/
lemma foldl_applyFilter_sound {filters : RowData} {r : RowData} :
    ∀ (cols : List String) (l : List RowData) (col : String),
      r ∈ cols.foldl (applyFilter filters) l → col ∈ cols →
      jsStr filters col ≠ "" → jsGet r col = some (jsStr filters col) := by
  intro cols
  induction cols with
  | nil => intro l col _ hcol; cases hcol
  | cons c cs ih =>
    intro l col h hcol hne
    rcases List.mem_cons.mp hcol with hc | hc
    · subst hc
      have h1 : r ∈ applyFilter filters l col :=
        mem_foldl_applyFilter cs (applyFilter filters l col) h
      simp only [applyFilter] at h1
      rw [if_pos hne] at h1
      exact eq_of_beq (List.mem_filter.mp h1).2
    · exact ih (applyFilter filters l c) col h hc hne

/-! ## Comparator lemmas -/

lemma IsComparison.zero_symm {α : Type} {c : α → α → Int}
    (h : IsComparison c) {a b : α} (h0 : c a b = 0) : c b a = 0 := by
  rcases lt_trichotomy (c b a) 0 with hlt | he | hgt
  · have := (h.flip b a).mp hlt
    omega
  · exact he
  · have := (h.flip a b).mpr hgt
    omega

lemma IsComparison.total {α : Type} {c : α → α → Int} (h : IsComparison c) :
    ∀ a b, c a b ≤ 0 ∨ c b a ≤ 0 := by
  intro a b
  by_cases hab : c a b ≤ 0
  · exact Or.inl hab
  · exact Or.inr (le_of_lt ((h.flip b a).mpr (by omega)))

lemma IsComparison.le_tr {α : Type} {c : α → α → Int} (h : IsComparison c) :
    ∀ a b d, c a b ≤ 0 → c b d ≤ 0 → c a d ≤ 0 := by
  intro a b d hab hbd
  rcases lt_or_eq_of_le hab with hab' | hab' <;>
    rcases lt_or_eq_of_le hbd with hbd' | hbd'
  · exact le_of_lt (h.lt_lt a b d hab' hbd')
  · exact le_of_lt (h.lt_eq a b d hab' hbd')
  · exact le_of_lt (h.eq_lt a b d hab' hbd')
  · exact le_of_eq (h.eq_eq a b d hab' hbd')

lemma IsComparison.comap {α β : Type} {c : α → α → Int} (h : IsComparison c)
    (f : β → α) : IsComparison (fun x y => c (f x) (f y)) where
  flip a b := h.flip (f a) (f b)
  lt_lt a b d := h.lt_lt (f a) (f b) (f d)
  eq_lt a b d := h.eq_lt (f a) (f b) (f d)
  lt_eq a b d := h.lt_eq (f a) (f b) (f d)
  eq_eq a b d := h.eq_eq (f a) (f b) (f d)

lemma combineCmp_neg_iff {α : Type} (f g : α → α → Int) (a b : α) :
    combineCmp f g a b < 0 ↔ f a b < 0 ∨ (f a b = 0 ∧ g a b < 0) := by
  by_cases h : f a b = 0 <;> simp [combineCmp, h]

lemma combineCmp_zero_iff {α : Type} (f g : α → α → Int) (a b : α) :
    combineCmp f g a b = 0 ↔ f a b = 0 ∧ g a b = 0 := by
  by_cases h : f a b = 0 <;> simp [combineCmp, h]

lemma combineCmp_pos_iff {α : Type} (f g : α → α → Int) (a b : α) :
    0 < combineCmp f g a b ↔ 0 < f a b ∨ (f a b = 0 ∧ 0 < g a b) := by
  by_cases h : f a b = 0 <;> simp [combineCmp, h]

lemma IsComparison.combine {α : Type} {f g : α → α → Int}
    (hf : IsComparison f) (hg : IsComparison g) :
    IsComparison (combineCmp f g) where
  flip a b := by
    rw [combineCmp_neg_iff, combineCmp_pos_iff]
    constructor
    · rintro (h | ⟨h0, h⟩)
      · exact Or.inl ((hf.flip a b).mp h)
      · exact Or.inr ⟨hf.zero_symm h0, (hg.flip a b).mp h⟩
    · rintro (h | ⟨h0, h⟩)
      · exact Or.inl ((hf.flip a b).mpr h)
      · exact Or.inr ⟨hf.zero_symm h0, (hg.flip a b).mpr h⟩
  lt_lt a b d hab hbd := by
    rw [combineCmp_neg_iff] at hab hbd ⊢
    rcases hab with hab | ⟨hab0, hab⟩ <;> rcases hbd with hbd | ⟨hbd0, hbd⟩
    · exact Or.inl (hf.lt_lt a b d hab hbd)
    · exact Or.inl (hf.lt_eq a b d hab hbd0)
    · exact Or.inl (hf.eq_lt a b d hab0 hbd)
    · exact Or.inr ⟨hf.eq_eq a b d hab0 hbd0, hg.lt_lt a b d hab hbd⟩
  eq_lt a b d hab hbd := by
    rw [combineCmp_zero_iff] at hab
    rw [combineCmp_neg_iff] at hbd ⊢
    rcases hbd with hbd | ⟨hbd0, hbd⟩
    · exact Or.inl (hf.eq_lt a b d hab.1 hbd)
    · exact Or.inr ⟨hf.eq_eq a b d hab.1 hbd0, hg.eq_lt a b d hab.2 hbd⟩
  lt_eq a b d hab hbd := by
    rw [combineCmp_zero_iff] at hbd
    rw [combineCmp_neg_iff] at hab ⊢
    rcases hab with hab | ⟨hab0, hab⟩
    · exact Or.inl (hf.lt_eq a b d hab hbd.1)
    · exact Or.inr ⟨hf.eq_eq a b d hab0 hbd.1, hg.lt_eq a b d hab hbd.2⟩
  eq_eq a b d hab hbd := by
    rw [combineCmp_zero_iff] at hab hbd ⊢
    exact ⟨hf.eq_eq a b d hab.1 hbd.1, hg.eq_eq a b d hab.2 hbd.2⟩

/-- The sort comparator of lines 441-456 is a valid comparison whenever
`localeCompare` is. -/
lemma rowCompare_isComparison {lc : String → String → Int}
    (hlc : IsComparison lc) (sortKey : String) :
    IsComparison (rowCompare lc sortKey) := by
  by_cases hk : sortKey = "수록교재"
  · have he : rowCompare lc sortKey = fun a b =>
        combineCmp (fun x y => lc (jsStr x "수록교재") (jsStr y "수록교재"))
          (combineCmp (fun x y => lc (jsStr x "대단원") (jsStr y "대단원"))
            (fun x y => lc (jsStr x "중단원") (jsStr y "중단원"))) a b := by
      funext a b
      simp [rowCompare, hk, combineCmp]
    rw [he]
    exact (hlc.comap _).combine ((hlc.comap _).combine (hlc.comap _))
  · have he : rowCompare lc sortKey = fun a b =>
        lc (jsStr a sortKey) (jsStr b sortKey) := by
      funext a b
      simp [rowCompare, hk]
    rw [he]
    exact hlc.comap _

/-- A run of the sort comparator being `≤ 0` bounds the comparator on the
sort-key column itself (in the tie-break branch the first level is the sort
key). -/
lemma rowCompare_le_key {lc : String → String → Int} {sortKey : String}
    {a b : RowData} (hab : rowCompare lc sortKey a b ≤ 0) :
    lc (jsStr a sortKey) (jsStr b sortKey) ≤ 0 := by
  by_cases hk : sortKey = "수록교재"
  · subst hk
    simp only [rowCompare, if_pos rfl] at hab
    by_cases ht : lc (jsStr a "수록교재") (jsStr b "수록교재") = 0
    · exact le_of_eq ht
    · rwa [if_pos ht] at hab
  · simpa only [rowCompare, if_neg hk] using hab

/-- The demo comparator is valid. -/
lemma lcDemoComparison : IsComparison lcDemo := by
  refine ⟨?_, ?_, ?_, ?_, ?_⟩ <;> intros <;> simp only [lcDemo] at * <;> omega

/-! ## Claim theorems -/

/-- C4: a comma inside a quoted field is literal, and a doubled quote inside
a quoted field is unescaped to one literal quote:
`parseCsvLine "a,\"b,c\",d" = ["a", "b,c", "d"]` and
`parseCsvLine "a,\"b\"\"c\",d" = ["a", "b\"c", "d"]`. -/
theorem c4_parser_quoting :
    parseCsvLine "a,\"b,c\",d" = ["a", "b,c", "d"] ∧
    parseCsvLine "a,\"b\"\"c\",d" = ["a", "b\"c", "d"] := by
  decide

/-- C1: filter soundness — every record in the result of the
filter/search/sort pipeline equals the selected value, by exact
case-sensitive string equality, on every column with an active filter. -/
theorem c1_filter_soundness (lc : String → String → Int)
    (data : List RowData) (filters : RowData) (searchTerm sortKey : String)
    (r : RowData) (col v : String)
    (hr : r ∈ filteredData lc data filters searchTerm sortKey)
    (hcol : col ∈ FILTERABLE_COLUMNS)
    (hv : jsGet filters col = some v) (hne : v ≠ "") :
    jsGet r col = some v := by
  have h1 : r ∈ searchStep searchTerm (filterStep filters data) :=
    mem_sortStep.mp hr
  have h2 : r ∈ filterStep filters data := mem_searchStep h1
  have hstr : jsStr filters col = v := by simp [jsStr, hv]
  have := foldl_applyFilter_sound FILTERABLE_COLUMNS data col h2 hcol
    (by rw [hstr]; exact hne)
  rwa [hstr] at this

/-- Witness for C1 at a concrete dataset and filter selection. -/
theorem c1_filter_soundness_w :
    jsGet [("수록교재", "X"), ("작품명/지문명", "Wow")] "수록교재" = some "X" :=
  c1_filter_soundness lcDemo
    [[("수록교재", "X"), ("작품명/지문명", "Wow")],
     [("수록교재", "Y"), ("작품명/지문명", "A")]]
    [("수록교재", "X")] "" "작품명/지문명"
    [("수록교재", "X"), ("작품명/지문명", "Wow")] "수록교재" "X"
    (by decide) (by decide) (by decide) (by decide)

/-- C2: search soundness — with a non-empty search term, every record in
the pipeline's result contains the term as a case-insensitive substring of
its value in the searchable column `작품명/지문명`; with the empty term the
search step is the identity. -/
theorem c2_search_soundness :
    (∀ (lc : String → String → Int) (data : List RowData) (filters : RowData)
       (searchTerm sortKey : String) (r : RowData),
       searchTerm ≠ "" →
       r ∈ filteredData lc data filters searchTerm sortKey →
       jsIncludes (lowerS (jsStr r "작품명/지문명")) (lowerS searchTerm) = true) ∧
    (∀ l : List RowData, searchStep "" l = l) := by
  constructor
  · intro lc data filters searchTerm sortKey r hterm hr
    have h1 : r ∈ searchStep searchTerm (filterStep filters data) :=
      mem_sortStep.mp hr
    unfold searchStep at h1
    rw [if_pos hterm] at h1
    have h2 : rowMatchesSearch searchTerm r = true := (List.mem_filter.mp h1).2
    unfold rowMatchesSearch SEARCHABLE_COLUMNS at h2
    simp only [List.any_cons, List.any_nil, Bool.or_false,
      Bool.and_eq_true] at h2
    exact h2.2
  · intro l
    unfold searchStep
    simp

/-- Witness for C2 at a concrete dataset and search term. -/
theorem c2_search_soundness_w :
    jsIncludes (lowerS (jsStr [("작품명/지문명", "Wow")] "작품명/지문명"))
      (lowerS "oW") = true :=
  c2_search_soundness.1 lcDemo [[("작품명/지문명", "Wow")]] [] "oW"
    "작품명/지문명" [("작품명/지문명", "Wow")] (by decide) (by decide)

/-- C7: blank-row exclusion — every record of the published dataset has at
least one value that is non-empty after trimming. -/
theorem c7_blank_row_exclusion (csvText : String) (isInitial : Bool)
    (r : RowData) (hr : r ∈ (processBody csvText isInitial).1) :
    ∃ v ∈ jsValues r, jsTrimS v ≠ "" := by
  by_cases hlen : (splitLines (jsTrimL csvText.toList)).length < 2
  · unfold processBody at hr
    rw [if_pos hlen] at hr
    exact absurd hr (List.not_mem_nil r)
  · unfold processBody at hr
    rw [if_neg hlen] at hr
    have hr2 : r ∈ newRows (splitLines (jsTrimL csvText.toList)) := hr
    have h2 : rowNonEmpty r = true := (List.mem_filter.mp hr2).2
    unfold rowNonEmpty at h2
    obtain ⟨v, hv, hb⟩ := List.any_eq_true.mp h2
    refine ⟨v, hv, fun hc => ?_⟩
    rw [hc] at hb
    simp at hb

/-- Witness for C7: the body `a,b\n , \nx,y` has its all-blank middle row
excluded, and its surviving record has the non-blank value `x`. -/
theorem c7_blank_row_exclusion_w :
    ∃ v ∈ jsValues [("a", "x"), ("b", "y")], jsTrimS v ≠ "" :=
  c7_blank_row_exclusion "a,b\n , \nx,y" true [("a", "x"), ("b", "y")]
    (by decide)

/-- C8: page reset — after any transition that changes the search term, the
filter selection or the sort key, the current page is 1. -/
theorem c8_page_reset (st : AppState) (e : UiEvent)
    (h : (stepApp st e).searchTerm ≠ st.searchTerm ∨
         (stepApp st e).filters ≠ st.filters ∨
         (stepApp st e).sortKey ≠ st.sortKey) :
    (stepApp st e).currentPage = 1 := by
  by_cases hc : (applyEvent st e).searchTerm ≠ st.searchTerm ∨
      (applyEvent st e).filters ≠ st.filters ∨
      (applyEvent st e).sortKey ≠ st.sortKey
  · simp only [stepApp, if_pos hc]
  · simp only [stepApp, if_neg hc] at h
    exact absurd h hc

/-- Witness for C8: changing the search term from a concrete state with
page 5 lands on page 1. -/
theorem c8_page_reset_w :
    (stepApp ⟨"", [], "작품명/지문명", 5⟩ (UiEvent.setSearch "x")).currentPage
      = 1 :=
  c8_page_reset ⟨"", [], "작품명/지문명", 5⟩ (UiEvent.setSearch "x")
    (by decide)

/-- C9 counterexample: on a background refresh (`isInitial = false`) whose
body is a single line, the code publishes an *empty* dataset (the previous
dataset is not retained — the published data is `[]` whatever was shown
before) and publishes *no* error message. -/
theorem c9_counterexample :
    (processBody "x" false).1 = [] ∧ (processBody "x" false).2 = none := by
  decide

/-- C9 (amended): a body with fewer than 2 lines after trimming always
publishes an empty dataset — on first load and on background refresh alike,
replacing any previously published dataset — and publishes the
human-readable error message exactly when it is the very first load. -/
theorem c9_short_feed (csvText : String) (isInitial : Bool)
    (h : (splitLines (jsTrimL csvText.toList)).length < 2) :
    (processBody csvText isInitial).1 = [] ∧
    (processBody csvText isInitial).2 =
      (if isInitial then some emptySheetMsg else none) := by
  unfold processBody
  rw [if_pos h]
  exact ⟨rfl, rfl⟩

/-- Witness for the amended C9 on a concrete short body. -/
theorem c9_short_feed_w :
    (processBody "x" false).1 = [] ∧
    (processBody "x" false).2 = (if (false : Bool) then some emptySheetMsg else none) :=
  c9_short_feed "x" false (by decide)

/-! ## Key-set lemmas for C10 -/

/-- Reading after a JS property write: the written key returns the new
value, every other key is untouched. -/
lemma jsGet_jsSet (r : RowData) (k v key : String) :
    jsGet (jsSet r k v) key = if key = k then some v else jsGet r key := by
  induction r with
  | nil =>
    simp only [jsSet, jsGet]
    split_ifs <;> simp_all
  | cons p rest ih =>
    obtain ⟨k', v'⟩ := p
    simp only [jsSet, jsGet]
    split_ifs <;> simp_all [jsGet]

lemma jsGet_jsSet_isSome (r : RowData) (k v key : String) :
    (jsGet (jsSet r k v) key).isSome = true ↔
      key = k ∨ (jsGet r key).isSome = true := by
  rw [jsGet_jsSet]
  by_cases h : key = k <;> simp [h]

lemma jsGet_foldl_jsSet (f : Nat × String → String) (key : String) :
    ∀ (ps : List (Nat × String)) (obj : RowData),
      (jsGet (ps.foldl (fun o p => jsSet o p.2 (f p)) obj) key).isSome = true ↔
        key ∈ ps.map Prod.snd ∨ (jsGet obj key).isSome = true := by
  intro ps
  induction ps with
  | nil => intro obj; simp
  | cons p ps ih =>
    intro obj
    simp only [List.foldl_cons, List.map_cons, List.mem_cons]
    rw [ih, jsGet_jsSet_isSome]
    tauto

/-- The key set of a record built by `mkRow` is exactly the header list. -/
lemma mkRow_keys (headers : List String) (line : List Char) (key : String) :
    (jsGet (mkRow headers line) key).isSome = true ↔ key ∈ headers := by
  unfold mkRow
  rw [jsGet_foldl_jsSet]
  simp [jsGet]

/-- C10: column keys come from the naive comma split of the header line
(trimmed, one layer of quotes stripped), not from the quote-aware parser:
(1) every published record's key set is exactly `headersOf` of the body;
(2) on the header `"a,b",c` the naive split gives keys `a`, `b`, `c` while
the scanner parses the fields `a,b` and `c`; (3) the data row `"x,y",z`
under that header gets its first field bound to the split-apart key `a`,
its second field to `b`, and `c` defaults to empty. -/
theorem c10_naive_header_split :
    (∀ (csvText : String) (isInitial : Bool) (r : RowData) (key : String),
       r ∈ (processBody csvText isInitial).1 →
       ((jsGet r key).isSome = true ↔ key ∈ headersOf csvText)) ∧
    headersOf "\"a,b\",c\n\"x,y\",z" = ["a", "b", "c"] ∧
    parseCsvLine "\"a,b\",c" = ["a,b", "c"] ∧
    (processBody "\"a,b\",c\n\"x,y\",z" true).1 =
      [[("a", "x,y"), ("b", "z"), ("c", "")]] := by
  refine ⟨?_, by decide, by decide, by decide⟩
  intro csvText isInitial r key hr
  by_cases hlen : (splitLines (jsTrimL csvText.toList)).length < 2
  · unfold processBody at hr
    rw [if_pos hlen] at hr
    exact absurd hr (List.not_mem_nil r)
  · unfold processBody at hr
    rw [if_neg hlen] at hr
    have hr2 : r ∈ newRows (splitLines (jsTrimL csvText.toList)) := hr
    have h1 := (List.mem_filter.mp hr2).1
    obtain ⟨line, _, hline⟩ := List.mem_map.mp h1
    subst hline
    unfold headersOf
    exact mkRow_keys _ line key

/-- Witness for C10 on the record published for the body
`"a,b",c` + `"x,y",z`. -/
theorem c10_naive_header_split_w :
    (jsGet [("a", "x,y"), ("b", "z"), ("c", "")] "b").isSome = true ↔
      "b" ∈ headersOf "\"a,b\",c\n\"x,y\",z" :=
  c10_naive_header_split.1 "\"a,b\",c\n\"x,y\",z" true
    [("a", "x,y"), ("b", "z"), ("c", "")] "b" (by decide)

/-- C3: sortedness — for every input, adjacent pairs of the pipeline's
result satisfy `rowCompare ≤ 0` (the three-level Korean-collation tie-break
chain when the sort key is the secondary grouping column `수록교재`, the
plain locale comparison on the sort key otherwise); consequently the locale
comparator on the active sort key itself is `≤ 0` on every adjacent pair. -/
theorem c3_sortedness (lc : String → String → Int) (data : List RowData)
    (filters : RowData) (searchTerm sortKey : String)
    (hlc : IsComparison lc) :
    List.Chain' (fun a b => rowCompare lc sortKey a b ≤ 0)
      (filteredData lc data filters searchTerm sortKey) ∧
    List.Chain' (fun a b => lc (jsStr a sortKey) (jsStr b sortKey) ≤ 0)
      (filteredData lc data filters searchTerm sortKey) := by
  have hcmp := rowCompare_isComparison hlc sortKey
  haveI : IsTotal RowData (fun a b => rowCompare lc sortKey a b ≤ 0) :=
    ⟨hcmp.total⟩
  haveI : IsTrans RowData (fun a b => rowCompare lc sortKey a b ≤ 0) :=
    ⟨hcmp.le_tr⟩
  have hs : List.Sorted (fun a b => rowCompare lc sortKey a b ≤ 0)
      (filteredData lc data filters searchTerm sortKey) := by
    unfold filteredData sortStep
    exact List.sorted_insertionSort _ _
  refine ⟨List.Pairwise.chain' hs, ?_⟩
  exact List.Chain'.imp (fun a b hab => rowCompare_le_key hab)
    (List.Pairwise.chain' hs)

/-- Witness for C3 with the demo comparator, the tie-break sort key and a
concrete two-row dataset. -/
theorem c3_sortedness_w :
    List.Chain' (fun a b => rowCompare lcDemo "수록교재" a b ≤ 0)
      (filteredData lcDemo
        [[("수록교재", "BB"), ("작품명/지문명", "W")],
         [("수록교재", "A"), ("작품명/지문명", "V")]] [] "" "수록교재") ∧
    List.Chain' (fun a b => lcDemo (jsStr a "수록교재") (jsStr b "수록교재") ≤ 0)
      (filteredData lcDemo
        [[("수록교재", "BB"), ("작품명/지문명", "W")],
         [("수록교재", "A"), ("작품명/지문명", "V")]] [] "" "수록교재") :=
  c3_sortedness lcDemo
    [[("수록교재", "BB"), ("작품명/지문명", "W")],
     [("수록교재", "A"), ("작품명/지문명", "V")]] [] "" "수록교재"
    lcDemoComparison

/-! ## Parser shape lemmas for the round-trip property -/

lemma consHead_ne_nil (c : Char) (r : List (List Char)) : consHead c r ≠ [] := by
  cases r <;> simp [consHead]

lemma parseCsv_ne_nil (b : Bool) (l : List Char) : parseCsv b l ≠ [] := by
  induction b, l using parseCsv.induct <;> simp_all [parseCsv, consHead_ne_nil]

lemma parseCsv_qq (rest : List Char) :
    parseCsv true ('"' :: '"' :: rest) = consHead '"' (parseCsv true rest) :=
  rfl

lemma parseCsv_close_cons {c : Char} (rest : List Char) (h : c ≠ '"') :
    parseCsv true ('"' :: c :: rest) = parseCsv false (c :: rest) := by
  rw [parseCsv.eq_def]
  split
  all_goals try simp_all
  next _ _ cc rr heq hne => exact absurd heq.1.symm hne

lemma parseCsv_true_other {c : Char} (rest : List Char) (h : c ≠ '"') :
    parseCsv true (c :: rest) = consHead c (parseCsv true rest) := by
  rw [parseCsv.eq_def]
  split <;> simp_all

lemma parseCsv_false_comma (rest : List Char) :
    parseCsv false (',' :: rest) = [] :: parseCsv false rest :=
  rfl

lemma parseCsv_false_quote (rest : List Char) :
    parseCsv false ('"' :: rest) = parseCsv true rest :=
  rfl

lemma parseCsv_false_other {c : Char} (rest : List Char) (h1 : c ≠ '"')
    (h2 : c ≠ ',') :
    parseCsv false (c :: rest) = consHead c (parseCsv false rest) := by
  rw [parseCsv.eq_def]
  split <;> simp_all

lemma consHead_consAll (c : Char) (s : List Char) (r : List (List Char)) :
    consHead c (consAll s r) = consAll (c :: s) r := by
  cases r <;> rfl

lemma dblQuotes_quote (s : List Char) :
    dblQuotes ('"' :: s) = '"' :: '"' :: dblQuotes s := by
  simp [dblQuotes]

lemma dblQuotes_other {c : Char} (s : List Char) (h : c ≠ '"') :
    dblQuotes (c :: s) = c :: dblQuotes s := by
  simp [dblQuotes, h]

/-- Scanning a quoted field body (quotes re-doubled) up to its closing
quote accumulates exactly the field content. -/
lemma parseCsv_quoted (s : List Char) (rest : List Char)
    (hrest : rest = [] ∨ ∃ rs, rest = ',' :: rs) :
    parseCsv true (dblQuotes s ++ '"' :: rest) =
      consAll s (parseCsv false rest) := by
  induction s with
  | nil =>
    rcases hrest with h | ⟨rs, h⟩ <;> subst h
    · rfl
    · show parseCsv true ('"' :: ',' :: rs) = consAll [] (parseCsv false (',' :: rs))
      rw [parseCsv_close_cons _ (by decide), parseCsv_false_comma]
      rfl
  | cons c s ih =>
    by_cases hc : c = '"'
    · subst hc
      rw [dblQuotes_quote, List.cons_append, List.cons_append, parseCsv_qq,
        ih, consHead_consAll]
    · rw [dblQuotes_other _ hc, List.cons_append, parseCsv_true_other _ hc,
        ih, consHead_consAll]

/-- Scanning an unquoted field (no quote, no comma) accumulates exactly the
field content. -/
lemma parseCsv_unquoted (s rest : List Char) :
    (∀ c ∈ s, c ≠ '"' ∧ c ≠ ',') →
    parseCsv false (s ++ rest) = consAll s (parseCsv false rest) := by
  induction s with
  | nil =>
    intro _
    obtain ⟨x, xs, hx⟩ : ∃ x xs, parseCsv false rest = x :: xs := by
      rcases hcases : parseCsv false rest with _ | ⟨x, xs⟩
      · exact absurd hcases (parseCsv_ne_nil false rest)
      · exact ⟨x, xs, rfl⟩
    rw [List.nil_append, hx]
    rfl
  | cons c s ih =>
    intro h
    have hc := h c (List.mem_cons_self c s)
    rw [List.cons_append, parseCsv_false_other _ hc.1 hc.2,
      ih (fun d hd => h d (List.mem_cons_of_mem c hd)), consHead_consAll]

/-- The scanner inverts the spec's rejoin on every balanced line. -/
lemma parseCsv_encodeLine :
    ∀ fields : List (String × Bool), fields ≠ [] →
    (∀ f ∈ fields, f.2 = false → ∀ c ∈ f.1.toList, c ≠ '"' ∧ c ≠ ',') →
    parseCsv false (encodeLine fields) = fields.map (fun f => f.1.toList) := by
  intro fields
  induction fields with
  | nil => intro hne _; exact absurd rfl hne
  | cons f rest ih =>
    intro _ hq
    obtain ⟨s, q⟩ := f
    cases rest with
    | nil =>
      cases q with
      | false =>
        have hs : ∀ c ∈ s.toList, c ≠ '"' ∧ c ≠ ',' :=
          hq (s, false) (List.mem_cons_self _ _) rfl
        show parseCsv false s.toList = [s.toList]
        rw [← List.append_nil s.toList, parseCsv_unquoted _ _ hs]
        simp [consAll, parseCsv]
      | true =>
        show parseCsv false ('"' :: (dblQuotes s.toList ++ ['"'])) = [s.toList]
        rw [parseCsv_false_quote, parseCsv_quoted s.toList [] (Or.inl rfl)]
        simp [consAll, parseCsv]
    | cons g rest2 =>
      have hne2 : g :: rest2 ≠ [] := List.cons_ne_nil g rest2
      have hq2 : ∀ f ∈ g :: rest2, f.2 = false →
          ∀ c ∈ f.1.toList, c ≠ '"' ∧ c ≠ ',' :=
        fun f hf => hq f (List.mem_cons_of_mem _ hf)
      cases q with
      | false =>
        have hs : ∀ c ∈ s.toList, c ≠ '"' ∧ c ≠ ',' :=
          hq (s, false) (List.mem_cons_self _ _) rfl
        show parseCsv false (s.toList ++ ',' :: encodeLine (g :: rest2)) =
          s.toList :: (g :: rest2).map (fun f => f.1.toList)
        rw [parseCsv_unquoted _ _ hs, parseCsv_false_comma, ih hne2 hq2]
        simp [consAll]
      | true =>
        show parseCsv false
            (('"' :: (dblQuotes s.toList ++ ['"'])) ++ ',' :: encodeLine (g :: rest2)) =
          s.toList :: (g :: rest2).map (fun f => f.1.toList)
        rw [List.cons_append, parseCsv_false_quote, List.append_assoc,
          List.singleton_append,
          parseCsv_quoted s.toList _ (Or.inr ⟨_, rfl⟩),
          parseCsv_false_comma, ih hne2 hq2]
        simp [consAll]

/-- C5: parser round-trip — for every line with balanced quoting (i.e.
every line arising as the rejoin of a field sequence, where unquoted fields
contain no quote and no comma, and quoted fields are re-quoted with
embedded quotes re-doubled), parsing reproduces the original field values
exactly. -/
theorem c5_round_trip (fields : List (String × Bool)) (hne : fields ≠ [])
    (hq : ∀ f ∈ fields, f.2 = false → ∀ c ∈ f.1.toList, c ≠ '"' ∧ c ≠ ',') :
    parseCsvLine (String.mk (encodeLine fields)) = fields.map Prod.fst := by
  show (parseCsv false (String.mk (encodeLine fields)).toList).map String.mk = _
  have h1 : (String.mk (encodeLine fields)).toList = encodeLine fields := rfl
  rw [h1, parseCsv_encodeLine fields hne hq, List.map_map]
  have h2 : (String.mk ∘ fun f : String × Bool => f.1.toList) = Prod.fst := by
    funext f
    rfl
  rw [h2]

/-- Witness for C5 on the line `a,"b,c","d""e"`. -/
theorem c5_round_trip_w :
    parseCsvLine
        (String.mk (encodeLine [("a", false), ("b,c", true), ("d\"e", true)])) =
      ["a", "b,c", "d\"e"] :=
  c5_round_trip [("a", false), ("b,c", true), ("d\"e", true)] (by decide)
    (by decide)

/-! ## The scanner and the spec's quoting rules (for the regex comparison) -/

lemma parseCsv_nil (b : Bool) : parseCsv b [] = [[]] := by
  cases b <;> rfl

lemma parseCsv_close (rest : List Char) (h : ∀ rs, rest ≠ '"' :: rs) :
    parseCsv true ('"' :: rest) = parseCsv false rest := by
  cases rest with
  | nil => rfl
  | cons c rs =>
    exact parseCsv_close_cons rs (fun hc => h rs (by rw [hc]))

lemma parseCsv_other (b : Bool) (c : Char) (rest : List Char) (hq : c ≠ '"')
    (hc : b = false → c ≠ ',') :
    parseCsv b (c :: rest) = consHead c (parseCsv b rest) := by
  cases b
  · exact parseCsv_false_other rest hq (hc rfl)
  · exact parseCsv_true_other rest hq

/-- The character scanner satisfies the spec's quoting rules on every line
(including malformed ones). -/
lemma quotingParse_parseCsv (b : Bool) (l : List Char) :
    QuotingParse b l (parseCsv b l) := by
  induction b, l using parseCsv.induct with
  | case1 x =>
    rw [parseCsv_nil]
    exact .eol x
  | case2 rest ih =>
    rw [parseCsv_qq]
    exact .escapedQuote rest _ ih
  | case3 rest hne ih =>
    rw [parseCsv_close rest hne]
    exact .closingQuote rest _ hne ih
  | case4 rest ih =>
    rw [parseCsv_false_quote]
    exact .openingQuote rest _ ih
  | case5 rest ih =>
    rw [parseCsv_false_comma]
    exact .fieldSep rest _ ih
  | case6 inQuotes c rest h1 h2 h3 h4 ih =>
    have hq : c ≠ '"' := by
      cases inQuotes
      · exact fun hcq => h3 rfl hcq
      · exact fun hcq => h2 rfl hcq
    have hc : inQuotes = false → c ≠ ',' := fun hf hcc => h4 hf hcc
    rw [parseCsv_other inQuotes c rest hq hc]
    exact .literalChar inQuotes c rest _ hq hc ih

/-- The quoting rules are deterministic: any conforming field sequence is
the scanner's output. -/
lemma quotingParse_eq_parseCsv {b : Bool} {l : List Char}
    {out : List (List Char)} (h : QuotingParse b l out) :
    out = parseCsv b l := by
  induction h with
  | eol inQuotes => exact (parseCsv_nil inQuotes).symm
  | escapedQuote rest out _ ih => rw [parseCsv_qq, ih]
  | closingQuote rest out hne _ ih =>
    rw [parseCsv_close rest hne]
    exact ih
  | openingQuote rest out _ ih =>
    rw [parseCsv_false_quote]
    exact ih
  | fieldSep rest out _ ih => rw [parseCsv_false_comma, ih]
  | literalChar inQuotes c rest out hq hc _ ih =>
    rw [parseCsv_other inQuotes c rest hq hc, ih]

/-- C6: the character-scanning parser and the regex-based comma split are
not equivalent — on the line `"a,b,c` (two commas inside a quoted region)
the regex split cuts at both quoted commas while the scanner keeps them
literal — and on every line the scanner's output conforms to the spec's
quoting rules, those rules determine the output uniquely, so on every line
where the two implementations differ the scanner's output is the
conforming one and the regex split's is not. -/
theorem c6_regex_split_differs :
    (parseCsvLine "\"a,b,c" ≠ regexSplitLine "\"a,b,c" ∧
     parseCsvLine "\"a,b,c" = ["a,b,c"] ∧
     regexSplitLine "\"a,b,c" = ["\"a", "b", "c"]) ∧
    (∀ l : List Char, QuotingParse false l (parseCsv false l)) ∧
    (∀ (l : List Char) (out : List (List Char)),
       QuotingParse false l out → out = parseCsv false l) ∧
    (∀ l : List Char, regexSplit l ≠ parseCsv false l →
       ¬ QuotingParse false l (regexSplit l)) := by
  refine ⟨by decide, fun l => quotingParse_parseCsv false l,
    fun l out h => quotingParse_eq_parseCsv h, fun l hne h => ?_⟩
  exact hne (quotingParse_eq_parseCsv h)

/-- Witness for C6: on the concrete differing line `"a,b,c`, the regex
split's output violates the quoting rules. -/
theorem c6_regex_split_differs_w :
    ¬ QuotingParse false ("\"a,b,c".toList)
        (regexSplit ("\"a,b,c".toList)) :=
  c6_regex_split_differs.2.2.2 ("\"a,b,c".toList) (by decide)
